import Mathlib

/-!
Verification of the Tekton PipelineRun reconciler
(`controllers/tekton/pipelinerun_controller.go`).

The reconciler is embedded shallowly: the store (declarative PipelineRun
records plus derived Tekton PipelineRun resources) is explicit state, each
store call may be made to fail by an injected fault, and the reconciler
returns the new store, the controller result, the returned error and a
trace of the store operations it performed.
-/

/-- Errors a store operation can fail with (k8s apierrors taxonomy,
restricted to the kinds the reconciler distinguishes). -/
inductive StoreErr where
  | notFound
  | conflict
  | alreadyExists
  | other
deriving DecidableEq, Repr

/-- A namespace + name key (`types.NamespacedName`). -/
structure NamespacedName where
  ns : String
  name : String
deriving DecidableEq, Repr

/-- `metav1.ObjectMeta`, restricted to the fields the reconciler reads or
writes: namespace, name, finalizers list, deletion timestamp. -/
structure ObjectMeta where
  ns : String
  name : String
  finalizers : List String
  deletionTimestamp : Option Nat
deriving DecidableEq, Repr

/-- `devopsv2alpha1.PipelineRunSpec`, restricted to the fields this
controller reads: target derived-resource name and pipeline reference. -/
structure PipelineRunSpec where
  name : String
  pipelineRef : String
deriving DecidableEq, Repr

/-- The declarative record `devopsv2alpha1.PipelineRun`. -/
structure PipelineRun where
  metadata : ObjectMeta
  spec : PipelineRunSpec
deriving DecidableEq, Repr

/-- `metav1.TypeMeta`. -/
structure TypeMeta where
  kind : String
  apiVersion : String
deriving DecidableEq, Repr

/-- `tektonv1.PipelineRef` (the template reference). -/
structure PipelineRef where
  name : String
deriving DecidableEq, Repr

/-- `tektonv1.PipelineRunSpec`: the only field this controller sets is the
pipeline reference (a pointer in Go, hence `Option`). -/
structure TektonPipelineRunSpec where
  pipelineRef : Option PipelineRef
deriving DecidableEq, Repr

/-- The derived resource `tektonv1.PipelineRun`. -/
structure TektonPipelineRun where
  typeMeta : TypeMeta
  metadata : ObjectMeta
  spec : TektonPipelineRunSpec
deriving DecidableEq, Repr

/-- The store the reconciler talks to: declarative records and derived
Tekton resources, both keyed by namespace + name. -/
structure Store where
  records : List PipelineRun
  derived : List TektonPipelineRun
deriving DecidableEq, Repr

/-- Modelled from the spec: the finalizer marker string constant
`devopsv2alpha1.PipelineRunFinalizerName` (declared outside this file);
its exact value is immaterial to the reconciler's behaviour. -/
def PipelineRunFinalizerName : String := "pipelinerun.finalizers.kubesphere.io"

/-- Modelled from the spec: the helper `containsString` (declared outside
this file) is a membership test on the finalizer marker list. -/
def containsString (slice : List String) (s : String) : Bool :=
  slice.contains s

/-- `controllerutil.AddFinalizer`: append the finalizer if not present. -/
def addFinalizer (pr : PipelineRun) (f : String) : PipelineRun :=
  if pr.metadata.finalizers.contains f then pr
  else { pr with metadata := { pr.metadata with finalizers := pr.metadata.finalizers ++ [f] } }

/-- `controllerutil.RemoveFinalizer`: remove every occurrence of the
finalizer. -/
def removeFinalizer (pr : PipelineRun) (f : String) : PipelineRun :=
  { pr with metadata := { pr.metadata with finalizers := pr.metadata.finalizers.filter (fun x => x != f) } }

/-- Does a declarative record match a key? -/
def recKeyMatch (key : NamespacedName) (r : PipelineRun) : Bool :=
  r.metadata.ns == key.ns && r.metadata.name == key.name

/-- Does a derived resource match a key? -/
def derKeyMatch (key : NamespacedName) (t : TektonPipelineRun) : Bool :=
  t.metadata.ns == key.ns && t.metadata.name == key.name

/-- Look up the declarative record at a key. -/
def findRecord (s : Store) (key : NamespacedName) : Option PipelineRun :=
  s.records.find? (recKeyMatch key)

/-- Look up the derived resource at a key. -/
def findDerived (s : Store) (key : NamespacedName) : Option TektonPipelineRun :=
  s.derived.find? (derKeyMatch key)

/-- Replace the record stored at a key. -/
def replaceRecord (s : Store) (key : NamespacedName) (n : PipelineRun) : Store :=
  { s with records := s.records.map (fun x => if recKeyMatch key x then n else x) }

/-- Insert a derived resource. -/
def insertDerived (s : Store) (t : TektonPipelineRun) : Store :=
  { s with derived := t :: s.derived }

/-- Remove every derived resource at a key. -/
def removeDerived (s : Store) (key : NamespacedName) : Store :=
  { s with derived := s.derived.filter (fun x => !(derKeyMatch key x)) }

/-- Faults injected into the store: when a component is `some e`, the
corresponding store call fails with `e` instead of executing. -/
structure Faults where
  getRecord : Option StoreErr
  updateRecord : Option StoreErr
  getDerived : Option StoreErr
  createDerived : Option StoreErr
  deleteDerived : Option StoreErr
deriving DecidableEq, Repr

/-- The fault-free environment. -/
def noFaults : Faults := ⟨none, none, none, none, none⟩

/-- The fault environment where every record update fails with Conflict. -/
def conflictFaults : Faults := ⟨none, some .conflict, none, none, none⟩

/-- `r.Get` on the declarative record: fault, else found record, else
NotFound. -/
def getRecordOp (s : Store) (fault : Option StoreErr) (key : NamespacedName) :
    Except StoreErr PipelineRun :=
  match fault with
  | some e => .error e
  | none =>
    match findRecord s key with
    | some r => .ok r
    | none => .error .notFound

/-- `r.Update` on the declarative record: fault, else NotFound when no
record has its key, else replace the record at its key. -/
def updateRecordOp (s : Store) (fault : Option StoreErr) (r : PipelineRun) :
    Except StoreErr Store :=
  match fault with
  | some e => .error e
  | none =>
    if s.records.any (recKeyMatch ⟨r.metadata.ns, r.metadata.name⟩) then
      .ok (replaceRecord s ⟨r.metadata.ns, r.metadata.name⟩ r)
    else
      .error .notFound

/-- Lookup of the derived Tekton resource (`r.Get` / `TknClientset ... Get`):
fault, else found resource, else NotFound. -/
def getDerivedOp (s : Store) (fault : Option StoreErr) (key : NamespacedName) :
    Except StoreErr TektonPipelineRun :=
  match fault with
  | some e => .error e
  | none =>
    match findDerived s key with
    | some t => .ok t
    | none => .error .notFound

/-- `r.Create` of the derived Tekton resource: fault, else AlreadyExists
when one with its key is present, else insert it. -/
def createDerivedOp (s : Store) (fault : Option StoreErr) (t : TektonPipelineRun) :
    Except StoreErr Store :=
  match fault with
  | some e => .error e
  | none =>
    if s.derived.any (derKeyMatch ⟨t.metadata.ns, t.metadata.name⟩) then
      .error .alreadyExists
    else
      .ok (insertDerived s t)

/-- `TknClientset ... Delete` of the derived Tekton resource: fault, else
NotFound when absent, else remove it. -/
def deleteDerivedOp (s : Store) (fault : Option StoreErr) (key : NamespacedName) :
    Except StoreErr Store :=
  match fault with
  | some e => .error e
  | none =>
    if s.derived.any (derKeyMatch key) then
      .ok (removeDerived s key)
    else
      .error .notFound

/-- `client.IgnoreNotFound`: drop NotFound, keep every other error. -/
def ignoreNotFound (e : StoreErr) : Option StoreErr :=
  if e = .notFound then none else some e

/-- `ctrl.Result`. -/
structure CtrlResult where
  requeue : Bool
  requeueAfter : Nat
deriving DecidableEq, Repr

/-- `ctrl.Result{}` (the zero value, the only result the reconciler
returns). -/
def emptyResult : CtrlResult := ⟨false, 0⟩

/-- Which store operation an event of the trace records. -/
inductive Op where
  | getRecord
  | updateRecord
  | getDerived
  | createDerived
  | deleteDerived
deriving DecidableEq, Repr

/-- One store call of the trace: the operation and the error it returned,
if any. -/
structure OpEvent where
  op : Op
  fail : Option StoreErr
deriving DecidableEq, Repr

/-- Outcome of a reconciler sub-step: the new store, the error returned
by the Go function, and the trace of store calls it made. -/
structure StepResult where
  store : Store
  err : Option StoreErr
  trace : List OpEvent
deriving DecidableEq, Repr

/-- `PipelineRunReconciler.deleteExternalResources`: look the derived
Tekton resource up by the record's spec name in the record's namespace;
any lookup failure is treated as absence and cleanup succeeds trivially;
otherwise delete it, surfacing a delete failure. -/
def deleteExternalResources (s : Store) (f : Faults) (pipelineRun : PipelineRun) :
    StepResult :=
  match getDerivedOp s f.getDerived ⟨pipelineRun.metadata.ns, pipelineRun.spec.name⟩ with
  | .error e => { store := s, err := none, trace := [⟨.getDerived, some e⟩] }
  | .ok _ =>
    match deleteDerivedOp s f.deleteDerived ⟨pipelineRun.metadata.ns, pipelineRun.spec.name⟩ with
    | .error e =>
      { store := s, err := some e,
        trace := [⟨.getDerived, none⟩, ⟨.deleteDerived, some e⟩] }
    | .ok s1 =>
      { store := s1, err := none,
        trace := [⟨.getDerived, none⟩, ⟨.deleteDerived, none⟩] }

/-- `PipelineRunReconciler.reconcileTektonPipelineRun`: look the derived
Tekton resource up by the spec's name; any lookup failure is treated as
absence, in which case the translated resource is created (only kind,
api version, namespace, name and pipeline reference are set); if the
lookup succeeds the resource already exists and nothing is done. -/
def reconcileTektonPipelineRun (s : Store) (f : Faults) (ns : String)
    (pipelineRun : PipelineRunSpec) : StepResult :=
  match getDerivedOp s f.getDerived ⟨ns, pipelineRun.name⟩ with
  | .error e =>
    match createDerivedOp s f.createDerived
        ⟨⟨"PipelineRun", "tekton.dev/v1beta1"⟩, ⟨ns, pipelineRun.name, [], none⟩,
          ⟨some ⟨pipelineRun.pipelineRef⟩⟩⟩ with
    | .error e1 =>
      { store := s, err := some e1,
        trace := [⟨.getDerived, some e⟩, ⟨.createDerived, some e1⟩] }
    | .ok s1 =>
      { store := s1, err := none,
        trace := [⟨.getDerived, some e⟩, ⟨.createDerived, none⟩] }
  | .ok _ => { store := s, err := none, trace := [⟨.getDerived, none⟩] }

/-- `PipelineRunReconciler.reconcileTektonCrd`: delegate to
`reconcileTektonPipelineRun` on the record's spec. -/
def reconcileTektonCrd (s : Store) (f : Faults) (ns : String)
    (pipelineRun : PipelineRun) : StepResult :=
  reconcileTektonPipelineRun s f ns pipelineRun.spec

/-- The outcome of one reconciliation: new store, controller result,
returned error, and the trace of store calls. -/
structure ReconcileResult where
  store : Store
  result : CtrlResult
  err : Option StoreErr
  trace : List OpEvent
deriving DecidableEq, Repr

/-- `PipelineRunReconciler.Reconcile`: fetch the record (NotFound is
ignored); when active, add the finalizer and persist it if absent, then
reconcile the derived Tekton resource; when deleting, clean up the derived
resource and remove the finalizer if present, else do nothing. -/
def Reconcile (s : Store) (f : Faults) (req : NamespacedName) : ReconcileResult :=
  match getRecordOp s f.getRecord req with
  | .error e =>
    { store := s, result := emptyResult, err := ignoreNotFound e,
      trace := [⟨.getRecord, some e⟩] }
  | .ok pipelineRun =>
    if pipelineRun.metadata.deletionTimestamp.isNone then
      if !(containsString pipelineRun.metadata.finalizers PipelineRunFinalizerName) then
        match updateRecordOp s f.updateRecord (addFinalizer pipelineRun PipelineRunFinalizerName) with
        | .error e =>
          { store := s, result := emptyResult, err := some e,
            trace := [⟨.getRecord, none⟩, ⟨.updateRecord, some e⟩] }
        | .ok s1 =>
          { store := (reconcileTektonCrd s1 f req.ns (addFinalizer pipelineRun PipelineRunFinalizerName)).store,
            result := emptyResult,
            err := (reconcileTektonCrd s1 f req.ns (addFinalizer pipelineRun PipelineRunFinalizerName)).err,
            trace := ⟨.getRecord, none⟩ :: ⟨.updateRecord, none⟩ ::
              (reconcileTektonCrd s1 f req.ns (addFinalizer pipelineRun PipelineRunFinalizerName)).trace }
      else
        { store := (reconcileTektonCrd s f req.ns pipelineRun).store,
          result := emptyResult,
          err := (reconcileTektonCrd s f req.ns pipelineRun).err,
          trace := ⟨.getRecord, none⟩ :: (reconcileTektonCrd s f req.ns pipelineRun).trace }
    else
      if containsString pipelineRun.metadata.finalizers PipelineRunFinalizerName then
        match (deleteExternalResources s f pipelineRun).err with
        | some e =>
          { store := (deleteExternalResources s f pipelineRun).store,
            result := emptyResult, err := some e,
            trace := ⟨.getRecord, none⟩ :: (deleteExternalResources s f pipelineRun).trace }
        | none =>
          match updateRecordOp (deleteExternalResources s f pipelineRun).store f.updateRecord
              (removeFinalizer pipelineRun PipelineRunFinalizerName) with
          | .error e =>
            { store := (deleteExternalResources s f pipelineRun).store,
              result := emptyResult, err := some e,
              trace := (⟨.getRecord, none⟩ :: (deleteExternalResources s f pipelineRun).trace) ++
                [⟨.updateRecord, some e⟩] }
          | .ok s2 =>
            { store := s2, result := emptyResult, err := none,
              trace := (⟨.getRecord, none⟩ :: (deleteExternalResources s f pipelineRun).trace) ++
                [⟨.updateRecord, none⟩] }
      else
        { store := s, result := emptyResult, err := none,
          trace := [⟨.getRecord, none⟩] }

/-! ## Concrete fixtures -/

/-- The spec of the running scenario of the development: namespace `ci`,
name `build-1`, template `tpl-a`. -/
def specCI : PipelineRunSpec := ⟨"build-1", "tpl-a"⟩

/-- The key of the scenario record. -/
def keyCI : NamespacedName := ⟨"ci", "build-1"⟩

/-- An active scenario record without the finalizer marker. -/
def recActiveNoMark : PipelineRun := ⟨⟨"ci", "build-1", [], none⟩, specCI⟩

/-- An active scenario record carrying the finalizer marker. -/
def recActiveMark : PipelineRun := ⟨⟨"ci", "build-1", [PipelineRunFinalizerName], none⟩, specCI⟩

/-- A deleting scenario record carrying the finalizer marker. -/
def recDeletingMark : PipelineRun := ⟨⟨"ci", "build-1", [PipelineRunFinalizerName], some 1⟩, specCI⟩

/-- The derived Tekton resource of the scenario record. -/
def tknCI : TektonPipelineRun :=
  ⟨⟨"PipelineRun", "tekton.dev/v1beta1"⟩, ⟨"ci", "build-1", [], none⟩, ⟨some ⟨"tpl-a"⟩⟩⟩

/-! ## Helper lemmas -/

/-- A record found at a key has that key. -/
lemma findRecord_key {s : Store} {key : NamespacedName} {r : PipelineRun}
    (h : findRecord s key = some r) :
    r.metadata.ns = key.ns ∧ r.metadata.name = key.name := by
  have hp := List.find?_some h
  simpa [recKeyMatch] using hp

/-- A record found at a key witnesses `any` on that key. -/
lemma records_any_of_findRecord {s : Store} {key : NamespacedName} {r : PipelineRun}
    (h : findRecord s key = some r) :
    s.records.any (recKeyMatch key) = true := by
  exact List.any_eq_true.mpr ⟨r, List.mem_of_find?_eq_some h, List.find?_some h⟩

/-- A derived resource found at a key witnesses `any` on that key. -/
lemma derived_any_of_findDerived {s : Store} {key : NamespacedName} {t : TektonPipelineRun}
    (h : findDerived s key = some t) :
    s.derived.any (derKeyMatch key) = true := by
  exact List.any_eq_true.mpr ⟨t, List.mem_of_find?_eq_some h, List.find?_some h⟩

/-- No derived resource at a key means `any` on that key is false. -/
lemma derived_any_eq_false_of_findDerived {s : Store} {key : NamespacedName}
    (h : findDerived s key = none) :
    s.derived.any (derKeyMatch key) = false := by
  exact List.any_eq_false.mpr (List.find?_eq_none.mp h)

/-- Replacing the element `find?` returns makes `find?` return the
replacement, provided the replacement satisfies the predicate. -/
lemma find?_map_replace {α : Type} (p : α → Bool) (n : α) (l : List α) (a : α)
    (h : l.find? p = some a) (hn : p n = true) :
    (l.map (fun x => if p x then n else x)).find? p = some n := by
  induction l with
  | nil => simp at h
  | cons b t ih =>
    rw [List.find?_cons] at h
    by_cases hb : p b = true
    · simp [List.find?_cons, hb, hn]
    · simp only [Bool.not_eq_true] at hb
      simp only [hb] at h
      simp only [List.map_cons, hb, Bool.false_eq_true, if_false]
      rw [List.find?_cons]
      simp only [hb]
      exact ih h

/-- Filtering out everything that matches a predicate empties `find?`. -/
lemma find?_filter_not {α : Type} (p : α → Bool) (l : List α) :
    (l.filter (fun x => !(p x))).find? p = none := by
  rw [List.find?_eq_none]
  intro x hx
  have := (List.mem_filter.mp hx).2
  simp only [Bool.not_eq_true'] at this
  simp [this]

/-- Removing a string from a list removes its membership. -/
lemma contains_filter_ne (l : List String) (a : String) :
    (l.filter (fun x => x != a)).contains a = false := by
  simp [List.contains_eq_any_beq]

/-- After `addFinalizer` the finalizer is present. -/
lemma containsString_addFinalizer (pr : PipelineRun) (f : String) :
    containsString (addFinalizer pr f).metadata.finalizers f = true := by
  unfold containsString addFinalizer
  split
  next h => exact h
  next h => simp [List.contains_eq_any_beq]

/-- After `removeFinalizer` the finalizer is absent. -/
lemma containsString_removeFinalizer (pr : PipelineRun) (f : String) :
    containsString (removeFinalizer pr f).metadata.finalizers f = false := by
  unfold containsString removeFinalizer
  exact contains_filter_ne _ _

lemma addFinalizer_ns (pr : PipelineRun) (f : String) :
    (addFinalizer pr f).metadata.ns = pr.metadata.ns := by
  unfold addFinalizer; split <;> rfl

lemma addFinalizer_name (pr : PipelineRun) (f : String) :
    (addFinalizer pr f).metadata.name = pr.metadata.name := by
  unfold addFinalizer; split <;> rfl

lemma addFinalizer_spec (pr : PipelineRun) (f : String) :
    (addFinalizer pr f).spec = pr.spec := by
  unfold addFinalizer; split <;> rfl

lemma recKeyMatch_addFinalizer (key : NamespacedName) (pr : PipelineRun) (f : String) :
    recKeyMatch key (addFinalizer pr f) = recKeyMatch key pr := by
  unfold recKeyMatch
  rw [addFinalizer_ns, addFinalizer_name]

lemma recKeyMatch_removeFinalizer (key : NamespacedName) (pr : PipelineRun) (f : String) :
    recKeyMatch key (removeFinalizer pr f) = recKeyMatch key pr := by
  unfold recKeyMatch removeFinalizer
  rfl

/-- `replaceRecord` leaves the derived resources untouched. -/
lemma replaceRecord_derived (s : Store) (key : NamespacedName) (n : PipelineRun) :
    (replaceRecord s key n).derived = s.derived := rfl

/-- Looking a key up after `replaceRecord` on it yields the replacement. -/
lemma findRecord_replaceRecord (s : Store) (key : NamespacedName) {r : PipelineRun}
    (n : PipelineRun) (h : findRecord s key = some r) (hn : recKeyMatch key n = true) :
    findRecord (replaceRecord s key n) key = some n := by
  unfold findRecord replaceRecord
  exact find?_map_replace _ _ _ _ h hn

/-- `findRecord` only depends on the records. -/
lemma findRecord_congr {s1 s2 : Store} (key : NamespacedName)
    (h : s1.records = s2.records) : findRecord s1 key = findRecord s2 key := by
  unfold findRecord
  rw [h]

/-- `findDerived` only depends on the derived resources. -/
lemma findDerived_congr {s1 s2 : Store} (key : NamespacedName)
    (h : s1.derived = s2.derived) : findDerived s1 key = findDerived s2 key := by
  unfold findDerived
  rw [h]

/-- A successful create only touches the derived resources. -/
lemma createDerivedOp_ok_records {s : Store} {fault : Option StoreErr}
    {t : TektonPipelineRun} {s1 : Store}
    (h : createDerivedOp s fault t = .ok s1) : s1.records = s.records := by
  unfold createDerivedOp at h
  split at h
  next => exact absurd h (by simp)
  next =>
    split at h
    next => exact absurd h (by simp)
    next =>
      injection h with h
      rw [← h]
      rfl

/-- A successful delete only touches the derived resources. -/
lemma deleteDerivedOp_ok_records {s : Store} {fault : Option StoreErr}
    {key : NamespacedName} {s1 : Store}
    (h : deleteDerivedOp s fault key = .ok s1) : s1.records = s.records := by
  unfold deleteDerivedOp at h
  split at h
  next => exact absurd h (by simp)
  next =>
    split at h
    next =>
      injection h with h
      rw [← h]
      rfl
    next => exact absurd h (by simp)

/-- A successful record update only touches the records. -/
lemma updateRecordOp_ok_derived {s : Store} {fault : Option StoreErr}
    {r : PipelineRun} {s1 : Store}
    (h : updateRecordOp s fault r = .ok s1) : s1.derived = s.derived := by
  unfold updateRecordOp at h
  split at h
  next => exact absurd h (by simp)
  next =>
    split at h
    next =>
      injection h with h
      rw [← h]
      rfl
    next => exact absurd h (by simp)

/-- Reconciling the derived resource never touches the records. -/
lemma reconcileTektonPipelineRun_records (s : Store) (f : Faults) (ns : String)
    (sp : PipelineRunSpec) :
    (reconcileTektonPipelineRun s f ns sp).store.records = s.records := by
  unfold reconcileTektonPipelineRun
  split
  · split
    · rfl
    next s1 h => exact createDerivedOp_ok_records h
  · rfl

/-- Cleanup never touches the records. -/
lemma deleteExternalResources_records (s : Store) (f : Faults) (pr : PipelineRun) :
    (deleteExternalResources s f pr).store.records = s.records := by
  unfold deleteExternalResources
  split
  · rfl
  · split
    · rfl
    next s1 h => exact deleteDerivedOp_ok_records h

/-- Claim C10: for every store state, fault environment and request key,
the reconciler returns a controller result whose requeue flag is false
(and zero requeue delay); retry is signaled exclusively through the
returned error. -/
theorem reconcile_never_requeues (s : Store) (f : Faults) (req : NamespacedName) :
    (Reconcile s f req).result.requeue = false ∧
    (Reconcile s f req).result.requeueAfter = 0 := by
  have h : (Reconcile s f req).result = emptyResult := by
    unfold Reconcile
    repeat' split
    all_goals rfl
  rw [h]
  exact ⟨rfl, rfl⟩

/-- Claim C7: when the declarative record no longer exists at the
requested key, reconcile returns ok (no error) and performs no
mutation. -/
theorem reconcile_missing_record_ok (s : Store) (req : NamespacedName)
    (h : findRecord s req = none) :
    (Reconcile s noFaults req).err = none ∧ (Reconcile s noFaults req).store = s := by
  simp [Reconcile, getRecordOp, noFaults, h, ignoreNotFound]

theorem reconcile_missing_record_ok_witness :
    (Reconcile ⟨[], []⟩ noFaults keyCI).err = none ∧
    (Reconcile ⟨[], []⟩ noFaults keyCI).store = ⟨[], []⟩ :=
  reconcile_missing_record_ok ⟨[], []⟩ keyCI (by decide)

/-- Claim C4: reconciling an active record carrying the marker whose
derived resource already exists mutates nothing and returns no error,
so repeating reconcile on the unchanged state is idempotent. -/
theorem reconcile_steady_state_noop (s : Store) (req : NamespacedName)
    (r : PipelineRun) (d : TektonPipelineRun)
    (hfind : findRecord s req = some r)
    (hact : r.metadata.deletionTimestamp = none)
    (hmark : containsString r.metadata.finalizers PipelineRunFinalizerName = true)
    (hder : findDerived s ⟨req.ns, r.spec.name⟩ = some d) :
    (Reconcile s noFaults req).store = s ∧ (Reconcile s noFaults req).err = none ∧
    Reconcile (Reconcile s noFaults req).store noFaults req = Reconcile s noFaults req := by
  have hmain : (Reconcile s noFaults req).store = s ∧ (Reconcile s noFaults req).err = none := by
    simp [Reconcile, getRecordOp, noFaults, hfind, hact, hmark,
      reconcileTektonCrd, reconcileTektonPipelineRun, getDerivedOp, hder]
  exact ⟨hmain.1, hmain.2, by rw [hmain.1]⟩

theorem reconcile_steady_state_noop_witness :
    (Reconcile ⟨[recActiveMark], [tknCI]⟩ noFaults keyCI).store = ⟨[recActiveMark], [tknCI]⟩ ∧
    (Reconcile ⟨[recActiveMark], [tknCI]⟩ noFaults keyCI).err = none ∧
    Reconcile (Reconcile ⟨[recActiveMark], [tknCI]⟩ noFaults keyCI).store noFaults keyCI =
      Reconcile ⟨[recActiveMark], [tknCI]⟩ noFaults keyCI :=
  reconcile_steady_state_noop ⟨[recActiveMark], [tknCI]⟩ keyCI recActiveMark tknCI
    (by decide) rfl (by decide) (by decide)

/-- Claim C3: reconciling an active record carrying the marker with no
derived resource at its target key creates exactly one derived resource,
named by the record spec name, whose template reference is the record
spec pipelineRef, and with no other field copied; the records are
untouched and no error is returned. -/
theorem reconcile_creates_derived (s : Store) (req : NamespacedName) (r : PipelineRun)
    (hfind : findRecord s req = some r)
    (hact : r.metadata.deletionTimestamp = none)
    (hmark : containsString r.metadata.finalizers PipelineRunFinalizerName = true)
    (hder : findDerived s ⟨req.ns, r.spec.name⟩ = none) :
    (Reconcile s noFaults req).store.derived =
      (⟨⟨"PipelineRun", "tekton.dev/v1beta1"⟩, ⟨req.ns, r.spec.name, [], none⟩,
        ⟨some ⟨r.spec.pipelineRef⟩⟩⟩ : TektonPipelineRun) :: s.derived ∧
    (Reconcile s noFaults req).store.records = s.records ∧
    (Reconcile s noFaults req).err = none := by
  have hany := derived_any_eq_false_of_findDerived hder
  simp [Reconcile, getRecordOp, noFaults, hfind, hact, hmark,
    reconcileTektonCrd, reconcileTektonPipelineRun, getDerivedOp, hder,
    createDerivedOp, hany, insertDerived]

theorem reconcile_creates_derived_witness :
    (Reconcile ⟨[recActiveMark], []⟩ noFaults keyCI).store.derived =
      (⟨⟨"PipelineRun", "tekton.dev/v1beta1"⟩, ⟨keyCI.ns, recActiveMark.spec.name, [], none⟩,
        ⟨some ⟨recActiveMark.spec.pipelineRef⟩⟩⟩ : TektonPipelineRun) :: (⟨[recActiveMark], []⟩ : Store).derived ∧
    (Reconcile ⟨[recActiveMark], []⟩ noFaults keyCI).store.records = (⟨[recActiveMark], []⟩ : Store).records ∧
    (Reconcile ⟨[recActiveMark], []⟩ noFaults keyCI).err = none :=
  reconcile_creates_derived ⟨[recActiveMark], []⟩ keyCI recActiveMark
    (by decide) rfl (by decide) (by decide)

/-- Claim C1, counterexample: for a concrete active record without the
marker and an empty derived store, a single fault-free reconcile call
does create a derived resource in that same call, contrary to the
claim. -/
theorem finalizer_add_same_call_creates :
    findRecord ⟨[recActiveNoMark], []⟩ keyCI = some recActiveNoMark ∧
    recActiveNoMark.metadata.deletionTimestamp = none ∧
    containsString recActiveNoMark.metadata.finalizers PipelineRunFinalizerName = false ∧
    (⟨[recActiveNoMark], []⟩ : Store).derived = [] ∧
    (Reconcile ⟨[recActiveNoMark], []⟩ noFaults keyCI).store.derived ≠ [] := by
  refine ⟨by decide, rfl, by decide, rfl, by decide⟩

/-- Claim C1 (amended): reconciling an active record without the marker
adds the marker and persists the record before any derived-resource
creation — if the persist fails, the store (hence the derived resources)
is unchanged and the error is returned — and on a fault-free call the
persisted record carries the marker; the same call then proceeds to
derived-resource reconciliation rather than stopping. -/
theorem finalizer_added_before_create (s : Store) (req : NamespacedName)
    (r : PipelineRun) (f : Faults) (e : StoreErr)
    (hfind : findRecord s req = some r)
    (hact : r.metadata.deletionTimestamp = none)
    (hnomark : containsString r.metadata.finalizers PipelineRunFinalizerName = false)
    (hg : f.getRecord = none) (hu : f.updateRecord = some e) :
    ((Reconcile s f req).store = s ∧ (Reconcile s f req).err = some e) ∧
    (findRecord (Reconcile s noFaults req).store req =
       some (addFinalizer r PipelineRunFinalizerName) ∧
     containsString (addFinalizer r PipelineRunFinalizerName).metadata.finalizers
       PipelineRunFinalizerName = true) := by
  have hkey := findRecord_key hfind
  have hmatch : recKeyMatch req r = true := List.find?_some hfind
  constructor
  · simp [Reconcile, getRecordOp, hg, hfind, hact, hnomark, updateRecordOp, hu]
  · refine ⟨?_, containsString_addFinalizer r _⟩
    have hkeyeq :
        (⟨(addFinalizer r PipelineRunFinalizerName).metadata.ns,
          (addFinalizer r PipelineRunFinalizerName).metadata.name⟩ : NamespacedName) = req := by
      rw [addFinalizer_ns, addFinalizer_name, hkey.1, hkey.2]
    have hupd : updateRecordOp s none (addFinalizer r PipelineRunFinalizerName) =
        .ok (replaceRecord s req (addFinalizer r PipelineRunFinalizerName)) := by
      unfold updateRecordOp
      rw [hkeyeq, records_any_of_findRecord hfind]
      simp
    have hrecs : (Reconcile s noFaults req).store.records =
        (replaceRecord s req (addFinalizer r PipelineRunFinalizerName)).records := by
      simp only [Reconcile, getRecordOp, noFaults, hfind, hact, hnomark, hupd,
        reconcileTektonCrd]
      simp [hact, hnomark, reconcileTektonPipelineRun_records]
    have hfind2 := findRecord_replaceRecord s req
      (addFinalizer r PipelineRunFinalizerName) hfind
      (by rw [recKeyMatch_addFinalizer]; exact hmatch)
    rw [findRecord_congr req hrecs]
    exact hfind2

lemma removeFinalizer_dts (pr : PipelineRun) (f : String) :
    (removeFinalizer pr f).metadata.deletionTimestamp = pr.metadata.deletionTimestamp := rfl

lemma removeDerived_records (s : Store) (key : NamespacedName) :
    (removeDerived s key).records = s.records := rfl

lemma insertDerived_records (s : Store) (t : TektonPipelineRun) :
    (insertDerived s t).records = s.records := rfl

lemma findDerived_removeDerived (s : Store) (key : NamespacedName) :
    findDerived (removeDerived s key) key = none := by
  unfold findDerived removeDerived
  exact find?_filter_not _ _

/-- A fault-free update on a present key succeeds and replaces the
record. -/
lemma updateRecordOp_ok (s : Store) (key : NamespacedName) (n : PipelineRun)
    (hany : s.records.any (recKeyMatch key) = true)
    (hn : (⟨n.metadata.ns, n.metadata.name⟩ : NamespacedName) = key) :
    updateRecordOp s none n = .ok (replaceRecord s key n) := by
  unfold updateRecordOp
  rw [hn, hany]
  simp

lemma noFaults_getRecord : noFaults.getRecord = none := rfl

lemma noFaults_updateRecord : noFaults.updateRecord = none := rfl

lemma noFaults_getDerived : noFaults.getDerived = none := rfl

lemma noFaults_createDerived : noFaults.createDerived = none := rfl

lemma noFaults_deleteDerived : noFaults.deleteDerived = none := rfl

/-- Cleanup when the derived resource is present and its two store calls
do not fault: the resource is deleted. -/
lemma deleteExternalResources_present (s : Store) (f : Faults) (pr : PipelineRun)
    (d : TektonPipelineRun)
    (hg : f.getDerived = none) (hd : f.deleteDerived = none)
    (hfd : findDerived s ⟨pr.metadata.ns, pr.spec.name⟩ = some d) :
    deleteExternalResources s f pr =
      ⟨removeDerived s ⟨pr.metadata.ns, pr.spec.name⟩, none,
        [⟨.getDerived, none⟩, ⟨.deleteDerived, none⟩]⟩ := by
  simp [deleteExternalResources, getDerivedOp, hg, hfd, deleteDerivedOp, hd,
    derived_any_of_findDerived hfd]

/-- Cleanup when the derived resource is absent and the lookup does not
fault: trivial success. -/
lemma deleteExternalResources_absent (s : Store) (f : Faults) (pr : PipelineRun)
    (hg : f.getDerived = none)
    (hfd : findDerived s ⟨pr.metadata.ns, pr.spec.name⟩ = none) :
    deleteExternalResources s f pr = ⟨s, none, [⟨.getDerived, some .notFound⟩]⟩ := by
  simp [deleteExternalResources, getDerivedOp, hg, hfd]

/-- A deleting record without the marker is a no-op. -/
lemma reconcile_deleting_unmarked_noop (s : Store) (req : NamespacedName)
    (r : PipelineRun) (ts : Nat)
    (hfind : findRecord s req = some r)
    (hdel : r.metadata.deletionTimestamp = some ts)
    (hmark : containsString r.metadata.finalizers PipelineRunFinalizerName = false) :
    (Reconcile s noFaults req).store = s ∧ (Reconcile s noFaults req).err = none := by
  simp [Reconcile, getRecordOp, noFaults, hfind, hdel, hmark]

/-- Full behaviour of a fault-free reconciliation of a deleting record
carrying the marker: cleanup first, then marker removal, then no-op. -/
lemma deleting_marked_behavior (s : Store) (req : NamespacedName)
    (r : PipelineRun) (ts : Nat)
    (hfind : findRecord s req = some r)
    (hdel : r.metadata.deletionTimestamp = some ts)
    (hmark : containsString r.metadata.finalizers PipelineRunFinalizerName = true) :
    (Reconcile s noFaults req).err = none ∧
    findDerived (Reconcile s noFaults req).store ⟨req.ns, r.spec.name⟩ = none ∧
    findRecord (Reconcile s noFaults req).store req =
      some (removeFinalizer r PipelineRunFinalizerName) ∧
    (Reconcile s noFaults req).trace =
      ⟨.getRecord, none⟩ ::
        (match findDerived s ⟨req.ns, r.spec.name⟩ with
         | some _ => [⟨.getDerived, none⟩, ⟨.deleteDerived, none⟩, ⟨.updateRecord, none⟩]
         | none => [⟨.getDerived, some .notFound⟩, ⟨.updateRecord, none⟩]) ∧
    (Reconcile (Reconcile s noFaults req).store noFaults req).err = none ∧
    (Reconcile (Reconcile s noFaults req).store noFaults req).store =
      (Reconcile s noFaults req).store := by
  have hkey := findRecord_key hfind
  have hmatch : recKeyMatch req r = true := List.find?_some hfind
  have hany : s.records.any (recKeyMatch req) = true := records_any_of_findRecord hfind
  have hkeyns : (⟨req.ns, r.spec.name⟩ : NamespacedName) = ⟨r.metadata.ns, r.spec.name⟩ := by
    rw [hkey.1]
  have hkeyeq : (⟨(removeFinalizer r PipelineRunFinalizerName).metadata.ns,
      (removeFinalizer r PipelineRunFinalizerName).metadata.name⟩ : NamespacedName) = req := by
    show (⟨r.metadata.ns, r.metadata.name⟩ : NamespacedName) = req
    rw [hkey.1, hkey.2]
  rw [hkeyns]
  cases hd : findDerived s ⟨r.metadata.ns, r.spec.name⟩ with
  | some d =>
    have hclean := deleteExternalResources_present s noFaults r d
      noFaults_getDerived noFaults_deleteDerived hd
    have hupd := updateRecordOp_ok (removeDerived s ⟨r.metadata.ns, r.spec.name⟩)
      req (removeFinalizer r PipelineRunFinalizerName) hany hkeyeq
    have hrec : Reconcile s noFaults req =
        { store := replaceRecord (removeDerived s ⟨r.metadata.ns, r.spec.name⟩) req
            (removeFinalizer r PipelineRunFinalizerName),
          result := emptyResult, err := none,
          trace := [⟨.getRecord, none⟩, ⟨.getDerived, none⟩, ⟨.deleteDerived, none⟩,
            ⟨.updateRecord, none⟩] } := by
      simp [Reconcile, getRecordOp, noFaults_getRecord, noFaults_updateRecord,
        hfind, hdel, hmark, hclean, hupd]
    have hfr : findRecord (Reconcile s noFaults req).store req =
        some (removeFinalizer r PipelineRunFinalizerName) := by
      rw [hrec]
      exact findRecord_replaceRecord _ _ _
        (by rw [findRecord_congr req (removeDerived_records s _)]; exact hfind)
        (by rw [recKeyMatch_removeFinalizer]; exact hmatch)
    have hfd2 : findDerived (Reconcile s noFaults req).store ⟨r.metadata.ns, r.spec.name⟩ = none := by
      rw [hrec]
      rw [findDerived_congr _ (replaceRecord_derived _ _ _)]
      exact findDerived_removeDerived _ _
    have h2 := reconcile_deleting_unmarked_noop (Reconcile s noFaults req).store req
      (removeFinalizer r PipelineRunFinalizerName) ts hfr
      (by rw [removeFinalizer_dts]; exact hdel)
      (containsString_removeFinalizer r _)
    exact ⟨by rw [hrec], hfd2, hfr, by rw [hrec], h2.2, h2.1⟩
  | none =>
    have hclean := deleteExternalResources_absent s noFaults r noFaults_getDerived hd
    have hupd := updateRecordOp_ok s
      req (removeFinalizer r PipelineRunFinalizerName) hany hkeyeq
    have hrec : Reconcile s noFaults req =
        { store := replaceRecord s req (removeFinalizer r PipelineRunFinalizerName),
          result := emptyResult, err := none,
          trace := [⟨.getRecord, none⟩, ⟨.getDerived, some .notFound⟩,
            ⟨.updateRecord, none⟩] } := by
      simp [Reconcile, getRecordOp, noFaults_getRecord, noFaults_updateRecord,
        hfind, hdel, hmark, hclean, hupd]
    have hfr : findRecord (Reconcile s noFaults req).store req =
        some (removeFinalizer r PipelineRunFinalizerName) := by
      rw [hrec]
      exact findRecord_replaceRecord _ _ _ hfind
        (by rw [recKeyMatch_removeFinalizer]; exact hmatch)
    have hfd2 : findDerived (Reconcile s noFaults req).store ⟨r.metadata.ns, r.spec.name⟩ = none := by
      rw [hrec]
      rw [findDerived_congr _ (replaceRecord_derived _ _ _)]
      exact hd
    have h2 := reconcile_deleting_unmarked_noop (Reconcile s noFaults req).store req
      (removeFinalizer r PipelineRunFinalizerName) ts hfr
      (by rw [removeFinalizer_dts]; exact hdel)
      (containsString_removeFinalizer r _)
    exact ⟨by rw [hrec], hfd2, hfr, by rw [hrec], h2.2, h2.1⟩

/-- Claim C2: reconciling a deleting record carrying the marker first
deletes the derived resource (if present) and only then removes the
marker and persists the record (witnessed by the operation trace), and
a second reconciliation after marker removal is a no-op returning
ok. -/
theorem reconcile_deleting_cleans_then_unmarks (s : Store) (req : NamespacedName)
    (r : PipelineRun) (ts : Nat)
    (hfind : findRecord s req = some r)
    (hdel : r.metadata.deletionTimestamp = some ts)
    (hmark : containsString r.metadata.finalizers PipelineRunFinalizerName = true) :
    (Reconcile s noFaults req).err = none ∧
    findDerived (Reconcile s noFaults req).store ⟨req.ns, r.spec.name⟩ = none ∧
    findRecord (Reconcile s noFaults req).store req =
      some (removeFinalizer r PipelineRunFinalizerName) ∧
    (Reconcile s noFaults req).trace =
      ⟨.getRecord, none⟩ ::
        (match findDerived s ⟨req.ns, r.spec.name⟩ with
         | some _ => [⟨.getDerived, none⟩, ⟨.deleteDerived, none⟩, ⟨.updateRecord, none⟩]
         | none => [⟨.getDerived, some .notFound⟩, ⟨.updateRecord, none⟩]) ∧
    (Reconcile (Reconcile s noFaults req).store noFaults req).err = none ∧
    (Reconcile (Reconcile s noFaults req).store noFaults req).store =
      (Reconcile s noFaults req).store :=
  deleting_marked_behavior s req r ts hfind hdel hmark

theorem reconcile_deleting_cleans_then_unmarks_witness :
    (Reconcile ⟨[recDeletingMark], [tknCI]⟩ noFaults keyCI).err = none ∧
    findDerived (Reconcile ⟨[recDeletingMark], [tknCI]⟩ noFaults keyCI).store
      ⟨keyCI.ns, recDeletingMark.spec.name⟩ = none ∧
    findRecord (Reconcile ⟨[recDeletingMark], [tknCI]⟩ noFaults keyCI).store keyCI =
      some (removeFinalizer recDeletingMark PipelineRunFinalizerName) ∧
    (Reconcile ⟨[recDeletingMark], [tknCI]⟩ noFaults keyCI).trace =
      ⟨.getRecord, none⟩ ::
        (match findDerived ⟨[recDeletingMark], [tknCI]⟩ ⟨keyCI.ns, recDeletingMark.spec.name⟩ with
         | some _ => [⟨.getDerived, none⟩, ⟨.deleteDerived, none⟩, ⟨.updateRecord, none⟩]
         | none => [⟨.getDerived, some .notFound⟩, ⟨.updateRecord, none⟩]) ∧
    (Reconcile (Reconcile ⟨[recDeletingMark], [tknCI]⟩ noFaults keyCI).store noFaults keyCI).err = none ∧
    (Reconcile (Reconcile ⟨[recDeletingMark], [tknCI]⟩ noFaults keyCI).store noFaults keyCI).store =
      (Reconcile ⟨[recDeletingMark], [tknCI]⟩ noFaults keyCI).store :=
  reconcile_deleting_cleans_then_unmarks ⟨[recDeletingMark], [tknCI]⟩ keyCI recDeletingMark 1
    (by decide) rfl (by decide)

/-- Claim C6: a deleting record carrying the marker whose derived
resource is absent still reconciles without error: cleanup succeeds
trivially (the lookup returns NotFound) and the marker is removed and
persisted, so no finalizer is left stuck. -/
theorem reconcile_deleting_absent_derived_unmarks (s : Store) (req : NamespacedName)
    (r : PipelineRun) (ts : Nat)
    (hfind : findRecord s req = some r)
    (hdel : r.metadata.deletionTimestamp = some ts)
    (hmark : containsString r.metadata.finalizers PipelineRunFinalizerName = true)
    (hder : findDerived s ⟨req.ns, r.spec.name⟩ = none) :
    (Reconcile s noFaults req).err = none ∧
    findRecord (Reconcile s noFaults req).store req =
      some (removeFinalizer r PipelineRunFinalizerName) ∧
    containsString (removeFinalizer r PipelineRunFinalizerName).metadata.finalizers
      PipelineRunFinalizerName = false ∧
    (Reconcile s noFaults req).trace =
      [⟨.getRecord, none⟩, ⟨.getDerived, some .notFound⟩, ⟨.updateRecord, none⟩] := by
  have h := deleting_marked_behavior s req r ts hfind hdel hmark
  refine ⟨h.1, h.2.2.1, containsString_removeFinalizer r _, ?_⟩
  rw [h.2.2.2.1, hder]

theorem reconcile_deleting_absent_derived_unmarks_witness :
    (Reconcile ⟨[recDeletingMark], []⟩ noFaults keyCI).err = none ∧
    findRecord (Reconcile ⟨[recDeletingMark], []⟩ noFaults keyCI).store keyCI =
      some (removeFinalizer recDeletingMark PipelineRunFinalizerName) ∧
    containsString (removeFinalizer recDeletingMark PipelineRunFinalizerName).metadata.finalizers
      PipelineRunFinalizerName = false ∧
    (Reconcile ⟨[recDeletingMark], []⟩ noFaults keyCI).trace =
      [⟨.getRecord, none⟩, ⟨.getDerived, some .notFound⟩, ⟨.updateRecord, none⟩] :=
  reconcile_deleting_absent_derived_unmarks ⟨[recDeletingMark], []⟩ keyCI recDeletingMark 1
    (by decide) rfl (by decide) (by decide)

/-- Claim C5: when the delete of the derived resource fails during
cleanup, reconcile returns the error (retryable) and leaves the store —
record, marker and derived resource — unchanged, and a later fault-free
reconciliation deletes the derived resource and removes the marker. -/
theorem delete_failure_retryable (s : Store) (req : NamespacedName)
    (r : PipelineRun) (ts : Nat) (d : TektonPipelineRun) (f : Faults) (e : StoreErr)
    (hfind : findRecord s req = some r)
    (hdel : r.metadata.deletionTimestamp = some ts)
    (hmark : containsString r.metadata.finalizers PipelineRunFinalizerName = true)
    (hder : findDerived s ⟨req.ns, r.spec.name⟩ = some d)
    (hg : f.getRecord = none) (hgd : f.getDerived = none) (hdd : f.deleteDerived = some e) :
    (Reconcile s f req).err = some e ∧
    (Reconcile s f req).store = s ∧
    (Reconcile (Reconcile s f req).store noFaults req).err = none ∧
    findDerived (Reconcile (Reconcile s f req).store noFaults req).store
      ⟨req.ns, r.spec.name⟩ = none ∧
    findRecord (Reconcile (Reconcile s f req).store noFaults req).store req =
      some (removeFinalizer r PipelineRunFinalizerName) := by
  have hkey := findRecord_key hfind
  have hderm : findDerived s ⟨r.metadata.ns, r.spec.name⟩ = some d := by
    rw [hkey.1]
    exact hder
  have hclean : deleteExternalResources s f r =
      ⟨s, some e, [⟨.getDerived, none⟩, ⟨.deleteDerived, some e⟩]⟩ := by
    simp [deleteExternalResources, getDerivedOp, hgd, hderm, deleteDerivedOp, hdd]
  have hrec1 : (Reconcile s f req).err = some e ∧ (Reconcile s f req).store = s := by
    simp [Reconcile, getRecordOp, hg, hfind, hdel, hmark, hclean]
  have h := deleting_marked_behavior s req r ts hfind hdel hmark
  rw [hrec1.2]
  exact ⟨hrec1.1, rfl, h.1, h.2.1, h.2.2.1⟩

theorem delete_failure_retryable_witness :
    (Reconcile ⟨[recDeletingMark], [tknCI]⟩ ⟨none, none, none, none, some .other⟩ keyCI).err =
      some .other ∧
    (Reconcile ⟨[recDeletingMark], [tknCI]⟩ ⟨none, none, none, none, some .other⟩ keyCI).store =
      ⟨[recDeletingMark], [tknCI]⟩ ∧
    (Reconcile (Reconcile ⟨[recDeletingMark], [tknCI]⟩ ⟨none, none, none, none, some .other⟩ keyCI).store
      noFaults keyCI).err = none ∧
    findDerived (Reconcile (Reconcile ⟨[recDeletingMark], [tknCI]⟩
      ⟨none, none, none, none, some .other⟩ keyCI).store noFaults keyCI).store
      ⟨keyCI.ns, recDeletingMark.spec.name⟩ = none ∧
    findRecord (Reconcile (Reconcile ⟨[recDeletingMark], [tknCI]⟩
      ⟨none, none, none, none, some .other⟩ keyCI).store noFaults keyCI).store keyCI =
      some (removeFinalizer recDeletingMark PipelineRunFinalizerName) :=
  delete_failure_retryable ⟨[recDeletingMark], [tknCI]⟩ keyCI recDeletingMark 1 tknCI
    ⟨none, none, none, none, some .other⟩ .other
    (by decide) rfl (by decide) (by decide) rfl rfl rfl

/-- Fault-free behaviour of reconciling an active record without the
marker: the marker is added and persisted and the call succeeds. -/
lemma active_unmarked_noFaults_behavior (s : Store) (req : NamespacedName) (r : PipelineRun)
    (hfind : findRecord s req = some r)
    (hact : r.metadata.deletionTimestamp = none)
    (hnomark : containsString r.metadata.finalizers PipelineRunFinalizerName = false) :
    (Reconcile s noFaults req).err = none ∧
    findRecord (Reconcile s noFaults req).store req =
      some (addFinalizer r PipelineRunFinalizerName) := by
  have hkey := findRecord_key hfind
  have hmatch : recKeyMatch req r = true := List.find?_some hfind
  have hany : s.records.any (recKeyMatch req) = true := records_any_of_findRecord hfind
  have hkeyeq :
      (⟨(addFinalizer r PipelineRunFinalizerName).metadata.ns,
        (addFinalizer r PipelineRunFinalizerName).metadata.name⟩ : NamespacedName) = req := by
    rw [addFinalizer_ns, addFinalizer_name, hkey.1, hkey.2]
  have hupd := updateRecordOp_ok s req
    (addFinalizer r PipelineRunFinalizerName) hany hkeyeq
  have hfr1 : findRecord (replaceRecord s req (addFinalizer r PipelineRunFinalizerName)) req =
      some (addFinalizer r PipelineRunFinalizerName) :=
    findRecord_replaceRecord _ _ _ hfind (by rw [recKeyMatch_addFinalizer]; exact hmatch)
  cases hd : findDerived (replaceRecord s req (addFinalizer r PipelineRunFinalizerName))
      ⟨req.ns, r.spec.name⟩ with
  | some d =>
    have hstep : reconcileTektonCrd (replaceRecord s req (addFinalizer r PipelineRunFinalizerName))
        noFaults req.ns (addFinalizer r PipelineRunFinalizerName) =
        ⟨replaceRecord s req (addFinalizer r PipelineRunFinalizerName), none,
          [⟨.getDerived, none⟩]⟩ := by
      simp [reconcileTektonCrd, reconcileTektonPipelineRun, getDerivedOp, noFaults_getDerived,
        addFinalizer_spec, hd]
    have hrec : Reconcile s noFaults req =
        { store := replaceRecord s req (addFinalizer r PipelineRunFinalizerName),
          result := emptyResult, err := none,
          trace := [⟨.getRecord, none⟩, ⟨.updateRecord, none⟩, ⟨.getDerived, none⟩] } := by
      simp [Reconcile, getRecordOp, noFaults_getRecord, noFaults_updateRecord,
        hfind, hact, hnomark, hupd, hstep]
    rw [hrec]
    exact ⟨rfl, hfr1⟩
  | none =>
    have hanyd := derived_any_eq_false_of_findDerived hd
    have hstep : reconcileTektonCrd (replaceRecord s req (addFinalizer r PipelineRunFinalizerName))
        noFaults req.ns (addFinalizer r PipelineRunFinalizerName) =
        ⟨insertDerived (replaceRecord s req (addFinalizer r PipelineRunFinalizerName))
            ⟨⟨"PipelineRun", "tekton.dev/v1beta1"⟩, ⟨req.ns, r.spec.name, [], none⟩,
              ⟨some ⟨r.spec.pipelineRef⟩⟩⟩, none,
          [⟨.getDerived, some .notFound⟩, ⟨.createDerived, none⟩]⟩ := by
      simp [reconcileTektonCrd, reconcileTektonPipelineRun, getDerivedOp, noFaults_getDerived,
        noFaults_createDerived, addFinalizer_spec, hd, createDerivedOp, hanyd]
    have hrec : Reconcile s noFaults req =
        { store := insertDerived (replaceRecord s req (addFinalizer r PipelineRunFinalizerName))
            ⟨⟨"PipelineRun", "tekton.dev/v1beta1"⟩, ⟨req.ns, r.spec.name, [], none⟩,
              ⟨some ⟨r.spec.pipelineRef⟩⟩⟩,
          result := emptyResult, err := none,
          trace := [⟨.getRecord, none⟩, ⟨.updateRecord, none⟩, ⟨.getDerived, some .notFound⟩,
            ⟨.createDerived, none⟩] } := by
      simp [Reconcile, getRecordOp, noFaults_getRecord, noFaults_updateRecord,
        hfind, hact, hnomark, hupd, hstep]
    rw [hrec]
    refine ⟨rfl, ?_⟩
    rw [findRecord_congr req (insertDerived_records _ _)]
    exact hfr1

lemma conflictFaults_getRecord : conflictFaults.getRecord = none := rfl

lemma conflictFaults_updateRecord : conflictFaults.updateRecord = some .conflict := rfl

lemma conflictFaults_getDerived : conflictFaults.getDerived = none := rfl

lemma conflictFaults_deleteDerived : conflictFaults.deleteDerived = none := rfl

/-- Claim C9: a Conflict failure of the record persist (marker add in the
active branch, marker remove in the deleting branch) surfaces as the
returned error — the only retry signal, never fatal — with the records
unchanged, and the re-invoked fault-free reconciliation re-fetches the
record and applies the mutation. -/
theorem conflict_on_persist_retryable (s : Store) (req : NamespacedName) (r : PipelineRun)
    (hfind : findRecord s req = some r)
    (hcase : (r.metadata.deletionTimestamp = none ∧
        containsString r.metadata.finalizers PipelineRunFinalizerName = false) ∨
      ((∃ ts, r.metadata.deletionTimestamp = some ts) ∧
        containsString r.metadata.finalizers PipelineRunFinalizerName = true)) :
    (Reconcile s conflictFaults req).err = some .conflict ∧
    (Reconcile s conflictFaults req).store.records = s.records ∧
    (Reconcile (Reconcile s conflictFaults req).store noFaults req).err = none ∧
    ∃ r2, findRecord (Reconcile (Reconcile s conflictFaults req).store noFaults req).store req =
        some r2 ∧
      containsString r2.metadata.finalizers PipelineRunFinalizerName =
        r.metadata.deletionTimestamp.isNone := by
  rcases hcase with ⟨hact, hnomark⟩ | ⟨⟨ts, hdel⟩, hmark⟩
  · have hrec1 : Reconcile s conflictFaults req =
        { store := s, result := emptyResult, err := some .conflict,
          trace := [⟨.getRecord, none⟩, ⟨.updateRecord, some .conflict⟩] } := by
      simp [Reconcile, getRecordOp, conflictFaults_getRecord, conflictFaults_updateRecord,
        hfind, hact, hnomark, updateRecordOp]
    have h2 := active_unmarked_noFaults_behavior s req r hfind hact hnomark
    rw [hrec1]
    exact ⟨rfl, rfl, h2.1, addFinalizer r PipelineRunFinalizerName, h2.2,
      by rw [containsString_addFinalizer, hact]; rfl⟩
  · have hkey := findRecord_key hfind
    cases hd : findDerived s ⟨r.metadata.ns, r.spec.name⟩ with
    | some d =>
      have hclean := deleteExternalResources_present s conflictFaults r d
        conflictFaults_getDerived conflictFaults_deleteDerived hd
      have hrec1 : Reconcile s conflictFaults req =
          { store := removeDerived s ⟨r.metadata.ns, r.spec.name⟩,
            result := emptyResult, err := some .conflict,
            trace := [⟨.getRecord, none⟩, ⟨.getDerived, none⟩, ⟨.deleteDerived, none⟩,
              ⟨.updateRecord, some .conflict⟩] } := by
        simp [Reconcile, getRecordOp, conflictFaults_getRecord, conflictFaults_updateRecord,
          hfind, hdel, hmark, hclean, updateRecordOp]
      have hfind2 : findRecord (removeDerived s ⟨r.metadata.ns, r.spec.name⟩) req = some r := by
        rw [findRecord_congr req (removeDerived_records s _)]
        exact hfind
      have h2 := deleting_marked_behavior (removeDerived s ⟨r.metadata.ns, r.spec.name⟩)
        req r ts hfind2 hdel hmark
      rw [hrec1]
      refine ⟨rfl, rfl, h2.1, removeFinalizer r PipelineRunFinalizerName, h2.2.2.1, ?_⟩
      rw [containsString_removeFinalizer, hdel]
      rfl
    | none =>
      have hclean := deleteExternalResources_absent s conflictFaults r
        conflictFaults_getDerived hd
      have hrec1 : Reconcile s conflictFaults req =
          { store := s, result := emptyResult, err := some .conflict,
            trace := [⟨.getRecord, none⟩, ⟨.getDerived, some .notFound⟩,
              ⟨.updateRecord, some .conflict⟩] } := by
        simp [Reconcile, getRecordOp, conflictFaults_getRecord, conflictFaults_updateRecord,
          hfind, hdel, hmark, hclean, updateRecordOp]
      have h2 := deleting_marked_behavior s req r ts hfind hdel hmark
      rw [hrec1]
      refine ⟨rfl, rfl, h2.1, removeFinalizer r PipelineRunFinalizerName, h2.2.2.1, ?_⟩
      rw [containsString_removeFinalizer, hdel]
      rfl

theorem conflict_on_persist_retryable_witness :
    (Reconcile ⟨[recActiveNoMark], []⟩ conflictFaults keyCI).err = some .conflict ∧
    (Reconcile ⟨[recActiveNoMark], []⟩ conflictFaults keyCI).store.records =
      (⟨[recActiveNoMark], []⟩ : Store).records ∧
    (Reconcile (Reconcile ⟨[recActiveNoMark], []⟩ conflictFaults keyCI).store noFaults keyCI).err =
      none ∧
    ∃ r2, findRecord (Reconcile (Reconcile ⟨[recActiveNoMark], []⟩ conflictFaults keyCI).store
        noFaults keyCI).store keyCI = some r2 ∧
      containsString r2.metadata.finalizers PipelineRunFinalizerName =
        recActiveNoMark.metadata.deletionTimestamp.isNone :=
  conflict_on_persist_retryable ⟨[recActiveNoMark], []⟩ keyCI recActiveNoMark
    (by decide) (Or.inl ⟨rfl, by decide⟩)

theorem finalizer_added_before_create_witness :
    ((Reconcile ⟨[recActiveNoMark], []⟩ ⟨none, some .other, none, none, none⟩ keyCI).store =
        ⟨[recActiveNoMark], []⟩ ∧
      (Reconcile ⟨[recActiveNoMark], []⟩ ⟨none, some .other, none, none, none⟩ keyCI).err =
        some .other) ∧
    (findRecord (Reconcile ⟨[recActiveNoMark], []⟩ noFaults keyCI).store keyCI =
       some (addFinalizer recActiveNoMark PipelineRunFinalizerName) ∧
     containsString (addFinalizer recActiveNoMark PipelineRunFinalizerName).metadata.finalizers
       PipelineRunFinalizerName = true) :=
  finalizer_added_before_create ⟨[recActiveNoMark], []⟩ keyCI recActiveNoMark
    ⟨none, some .other, none, none, none⟩ .other (by decide) rfl (by decide) rfl rfl

/-- If reconciling the derived resource returns no error, the only store
call of its trace that can have failed is the derived-resource lookup. -/
lemma reconcileTektonPipelineRun_ok_trace {s : Store} {f : Faults} {ns : String}
    {sp : PipelineRunSpec} {ev : OpEvent} {e : StoreErr}
    (hok : (reconcileTektonPipelineRun s f ns sp).err = none)
    (hev : ev ∈ (reconcileTektonPipelineRun s f ns sp).trace)
    (hfail : ev.fail = some e) : ev.op = .getDerived := by
  revert hok hev
  unfold reconcileTektonPipelineRun
  split
  · split
    · intro hok
      exact absurd hok (by simp)
    · intro _ hev
      simp only [List.mem_cons, List.not_mem_nil, or_false] at hev
      rcases hev with rfl | rfl
      · rfl
      · exact absurd hfail (by simp)
  · intro _ hev
    simp only [List.mem_cons, List.not_mem_nil, or_false] at hev
    subst hev
    exact absurd hfail (by simp)

/-- If cleanup returns no error, the only store call of its trace that can
have failed is the derived-resource lookup. -/
lemma deleteExternalResources_ok_trace {s : Store} {f : Faults} {pr : PipelineRun}
    {ev : OpEvent} {e : StoreErr}
    (hok : (deleteExternalResources s f pr).err = none)
    (hev : ev ∈ (deleteExternalResources s f pr).trace)
    (hfail : ev.fail = some e) : ev.op = .getDerived := by
  revert hok hev
  unfold deleteExternalResources
  split
  · intro _ hev
    simp only [List.mem_cons, List.not_mem_nil, or_false] at hev
    subst hev
    rfl
  · split
    · intro hok
      exact absurd hok (by simp)
    · intro _ hev
      simp only [List.mem_cons, List.not_mem_nil, or_false] at hev
      rcases hev with rfl | rfl
      · exact absurd hfail (by simp)
      · exact absurd hfail (by simp)

/-- Claim C8 (amended): when reconcile returns ok, every store call of
its trace that failed is either a derived-resource lookup (whose
failures, NotFound or not, are all treated as absence by the code) or
the record fetch failing with NotFound; equivalently, errors of record
fetch (other than NotFound), record update, derived create and derived
delete are never swallowed. -/
theorem reconcile_ok_only_lookup_errors (s : Store) (f : Faults) (req : NamespacedName)
    (ev : OpEvent) (e : StoreErr)
    (hok : (Reconcile s f req).err = none)
    (hev : ev ∈ (Reconcile s f req).trace)
    (hfail : ev.fail = some e) :
    ev.op = .getDerived ∨ (ev.op = .getRecord ∧ e = .notFound) := by
  revert hok hev
  unfold Reconcile
  split
  next e1 heq =>
    intro hok hev
    simp only [List.mem_cons, List.not_mem_nil, or_false] at hev
    subst hev
    have hfail2 : some e1 = some e := hfail
    injection hfail2 with h2
    subst h2
    have hne : e1 = .notFound := by
      by_contra hne
      unfold ignoreNotFound at hok
      rw [if_neg hne] at hok
      exact absurd hok (by simp)
    exact Or.inr ⟨rfl, hne⟩
  next pipelineRun heq =>
    split
    · split
      · split
        next e1 hupd =>
          intro hok
          exact absurd hok (by simp)
        next s1 hupd =>
          intro hok hev
          simp only [List.mem_cons] at hev
          rcases hev with rfl | rfl | hev
          · exact absurd hfail (by simp)
          · exact absurd hfail (by simp)
          · exact Or.inl (reconcileTektonPipelineRun_ok_trace hok hev hfail)
      · intro hok hev
        simp only [List.mem_cons] at hev
        rcases hev with rfl | hev
        · exact absurd hfail (by simp)
        · exact Or.inl (reconcileTektonPipelineRun_ok_trace hok hev hfail)
    · split
      · split
        next e1 heq2 =>
          intro hok
          exact absurd hok (by simp)
        next heq2 =>
          split
          next e1 hupd =>
            intro hok
            exact absurd hok (by simp)
          next s2 hupd =>
            intro _ hev
            simp only [List.cons_append, List.mem_cons, List.mem_append,
              List.not_mem_nil, or_false] at hev
            rcases hev with rfl | hev | rfl
            · exact absurd hfail (by simp)
            · exact Or.inl (deleteExternalResources_ok_trace heq2 hev hfail)
            · exact absurd hfail (by simp)
      · intro _ hev
        simp only [List.mem_cons, List.not_mem_nil, or_false] at hev
        subst hev
        exact absurd hfail (by simp)

theorem reconcile_ok_only_lookup_errors_witness :
    (⟨Op.getDerived, some StoreErr.notFound⟩ : OpEvent).op = Op.getDerived ∨
    ((⟨Op.getDerived, some StoreErr.notFound⟩ : OpEvent).op = Op.getRecord ∧
      StoreErr.notFound = StoreErr.notFound) :=
  reconcile_ok_only_lookup_errors ⟨[recActiveMark], []⟩ noFaults keyCI
    ⟨.getDerived, some .notFound⟩ .notFound (by decide) (by decide) rfl

/-- Claim C8, counterexample: a non-NotFound error on the derived
resource lookup during cleanup is swallowed — reconcile returns ok, the
derived resource is still present, and the marker has been removed —
contradicting the claim that only NotFound lookup outcomes are treated
as success. -/
theorem cleanup_lookup_error_swallowed :
    (Reconcile ⟨[recDeletingMark], [tknCI]⟩ ⟨none, none, some .other, none, none⟩ keyCI).err =
      none ∧
    (⟨Op.getDerived, some StoreErr.other⟩ : OpEvent) ∈
      (Reconcile ⟨[recDeletingMark], [tknCI]⟩ ⟨none, none, some .other, none, none⟩ keyCI).trace ∧
    StoreErr.other ≠ StoreErr.notFound ∧
    (Reconcile ⟨[recDeletingMark], [tknCI]⟩ ⟨none, none, some .other, none, none⟩ keyCI).store.derived =
      [tknCI] ∧
    findRecord (Reconcile ⟨[recDeletingMark], [tknCI]⟩
        ⟨none, none, some .other, none, none⟩ keyCI).store keyCI =
      some (removeFinalizer recDeletingMark PipelineRunFinalizerName) := by
  refine ⟨by decide, by decide, by decide, by decide, by decide⟩
